import Mathlib

/-!
Verification development for the ailabwatch scraper family
(`src/python/scraper-v8.py` as the primary version, together with
`ailabwatch_scraper_patched.py`, `scraper-v3.py` and relatives).

The development shallowly embeds:
* the regular-expression scanners the scrapers use on page text
  (`(\d+)\s*%`, `Weighted\s+(\d+)%\s+of category`, `Image:\s*<company>\s*\n(\d+)%`,
  `<title>.{0,300}?(\d+)\s*%\s*weight`),
* a document tree model with the sibling/ancestor walks used by the
  in-page JavaScript helpers of `scraper-v8.py`,
* the per-company score cascade of `extract_scores_js`,
* the cell-page rubric scraping of `scrape_subcategory_rubrics`,
* the dataset builders (`build_dataset` of v8, `main` of the patched scraper).
-/

/-! ## Character and string utilities -/

/-- JS `\s` / Python `\s` approximation: ASCII whitespace. -/
def isWs (c : Char) : Bool := c = ' ' || c = '\t' || c = '\n' || c = '\r'

/-- Maximal run of decimal digits at the head of the list, with the rest. -/
def takeDigits : List Char → List Char × List Char
  | [] => ([], [])
  | c :: cs =>
    if c.isDigit then
      let p := takeDigits cs
      (c :: p.1, p.2)
    else ([], c :: cs)

/-- Decimal value of a digit list (as `parseInt`/`int` on a digit-only string). -/
def digitsVal (l : List Char) : Nat :=
  l.foldl (fun a c => a * 10 + (c.toNat - 48)) 0

/-- `\d+` at the head: value of the maximal digit run and the remainder;
`none` when the head is not a digit. -/
def readDigits (l : List Char) : Option (Nat × List Char) :=
  let p := takeDigits l
  if p.1.isEmpty then none else some (digitsVal p.1, p.2)

/-- Drop leading whitespace (`\s*`). -/
def dropWs (l : List Char) : List Char := l.dropWhile isWs

/-- `\s+`: require at least one whitespace character, then drop the whole run. -/
def stripWs1 (l : List Char) : Option (List Char) :=
  match l with
  | [] => none
  | c :: cs => if isWs c then some (dropWs cs) else none

/-- Match a literal token at the head of the list, returning the remainder. -/
def stripToken : List Char → List Char → Option (List Char)
  | [], l => some l
  | _ :: _, [] => none
  | t :: ts, c :: cs => if t = c then stripToken ts cs else none

/-- Does `needle` occur as a contiguous sublist of `hay`? -/
def hasSub (needle : List Char) : List Char → Bool
  | [] => needle.isEmpty
  | c :: cs => needle.isPrefixOf (c :: cs) || hasSub needle cs

/-- Lower-case an entire string (ASCII case folding, as JS `/i` / `toLowerCase`). -/
def lowerStr (s : String) : String := String.mk (s.toList.map Char.toLower)

/-- Case-insensitive substring check (Playwright `has_text` semantics). -/
def containsCI (hay needle : String) : Bool :=
  hasSub (needle.toList.map Char.toLower) (hay.toList.map Char.toLower)

/-- Plain substring check on strings (JS `String.includes`, `href*=` matching). -/
def containsStr (hay needle : String) : Bool := hasSub needle.toList hay.toList

/-- Trim whitespace at both ends of a character list (Python `str.strip`). -/
def trimChars (l : List Char) : List Char :=
  ((l.dropWhile isWs).reverse.dropWhile isWs).reverse

/-- Python `str.strip()` / JS `String.trim()`. -/
def strTrim (s : String) : String := String.mk (trimChars s.toList)

/-- `title.split(":")[0].strip()`: the part before the first colon, stripped. -/
def beforeColon (title : String) : String :=
  String.mk (trimChars (title.toList.takeWhile (fun c => c ≠ ':')))

/-! ## Percentage scanners

`extract_scores_js` of `scraper-v8.py` uses `const percentRe = /(\d+)\s*%/` and
`String.match`, i.e. the leftmost match; the captured group is the maximal digit
run at the match position (a shorter run would be followed by a digit, not by
`\s*%`, so only the maximal run can complete the pattern). -/

/-- Try `(\d+)\s*%` anchored at the head of the list. -/
def percentAt (l : List Char) : Option Nat :=
  match readDigits l with
  | none => none
  | some (n, r) => if (dropWs r).head? = some '%' then some n else none

/-- Leftmost `(\d+)\s*%` match in the list, as `text.match(percentRe)`. -/
def findPercentAux : List Char → Option Nat
  | [] => none
  | c :: cs =>
    match percentAt (c :: cs) with
    | some n => some n
    | none => findPercentAux cs

/-- Leftmost `(\d+)\s*%` match in a string. -/
def findPercent (s : String) : Option Nat := findPercentAux s.toList

/-! ## The "Weighted NN% of category" scanner

`get_weight_js` of v8 uses `/Weighted\s+(\d+)%\s+of category/i` (case-insensitive);
the patched scraper uses the same pattern via `re.search` without `re.I`
(case-sensitive); v3 compiles it with `re.I`. -/

/-- Try `<w>\s+(\d+)%\s+<oc>` anchored at the head (`w`/`oc` are the two literal
tokens of the weight pattern). -/
def weightedAt (w oc : List Char) (l : List Char) : Option Nat :=
  match stripToken w l with
  | none => none
  | some r1 =>
    match stripWs1 r1 with
    | none => none
    | some r2 =>
      match readDigits r2 with
      | none => none
      | some (n, r3) =>
        match r3 with
        | '%' :: r4 =>
          match stripWs1 r4 with
          | none => none
          | some r5 => if oc.isPrefixOf r5 then some n else none
        | _ => none

/-- Leftmost match of the weight pattern in the list. -/
def findWeightedAux (w oc : List Char) : List Char → Option Nat
  | [] => none
  | c :: cs =>
    match weightedAt w oc (c :: cs) with
    | some n => some n
    | none => findWeightedAux w oc cs

/-- `Weighted\s+(\d+)%\s+of category`, case-insensitive (v8's `/i`, v3's `re.I`). -/
def findWeighted (s : String) : Option Nat :=
  findWeightedAux "weighted".toList "of category".toList (s.toList.map Char.toLower)

/-- `Weighted\s+(\d+)%\s+of category`, case-sensitive (patched scraper's `re.search`). -/
def findWeightedCS (s : String) : Option Nat :=
  findWeightedAux "Weighted".toList "of category".toList s.toList

/-! ## The "Image: Company\nNN%" scanner (v3 / v4 / patched score pattern) -/

/-- Try `Image:\s*<comp>\s*\n(\d+)%` anchored at the head.  The company names all
start with a letter, so the greedy `\s*` before the company literal is exactly
"drop all whitespace"; `\s*\n` succeeds exactly when the whitespace run after the
company ends with a newline (only the last `\n` of the run can be followed by a
digit). -/
def labelAt (comp : List Char) (l : List Char) : Option Nat :=
  match stripToken "Image:".toList l with
  | none => none
  | some r1 =>
    match stripToken comp (dropWs r1) with
    | none => none
    | some r3 =>
      let run := r3.takeWhile isWs
      let rest := r3.dropWhile isWs
      if run.getLastD 'x' = '\n' then
        match readDigits rest with
        | some (n, '%' :: _) => some n
        | _ => none
      else none

/-- Leftmost match of the label pattern in the list. -/
def findLabelAux (comp : List Char) : List Char → Option Nat
  | [] => none
  | c :: cs =>
    match labelAt comp (c :: cs) with
    | some n => some n
    | none => findLabelAux comp cs

/-- `re.search(rf"Image:\s*{comp}\s*\n(\d+)%", joined)` of v3/v4/patched. -/
def findLabelScore (joined comp : String) : Option Nat :=
  findLabelAux comp.toList joined.toList

/-! ## The category-weight scanner of `get_category_weights`

Pattern: `re.escape(title) + r".{0,300}?(\d+)\s*%\s*weight"`, `re.I | re.DOTALL`:
a title occurrence, a lazy gap of at most 300 arbitrary characters, then
`(\d+)\s*%\s*weight`.  The regex engine takes the leftmost title occurrence
whose gap can be completed, and for it the smallest gap. -/

/-- Try `(\d+)\s*%\s*weight` anchored at the head (on lower-cased text). -/
def percentWeightAt (l : List Char) : Option Nat :=
  match readDigits l with
  | none => none
  | some (n, r1) =>
    if (dropWs r1).head? = some '%' then
      if ("weight".toList).isPrefixOf (dropWs ((dropWs r1).tail)) then some n
      else none
    else none

/-- Lazy gap of at most `fuel` characters, then the percent-weight pattern:
try the pattern at the current position first, then advance by one gap
character while both the budget and the text last. -/
def gapScan : Nat → List Char → Option Nat
  | 0, l => percentWeightAt l
  | _ + 1, [] => percentWeightAt []
  | f + 1, c :: cs =>
    match percentWeightAt (c :: cs) with
    | some n => some n
    | none => gapScan f cs

/-- Scan for a title occurrence followed (within 300 characters) by the
percent-weight pattern; on failure continue with later title occurrences. -/
def findCatWeightAux (needle : List Char) : List Char → Option Nat
  | [] => none
  | c :: cs =>
    if needle.isPrefixOf (c :: cs) then
      match gapScan 300 ((stripToken needle (c :: cs)).getD []) with
      | some n => some n
      | none => findCatWeightAux needle cs
    else findCatWeightAux needle cs

/-- `re.search(re.escape(title) + r".{0,300}?(\d+)\s*%\s*weight", body, re.I|re.S)`. -/
def findCatWeight (title body : String) : Option Nat :=
  findCatWeightAux (title.toList.map Char.toLower) (body.toList.map Char.toLower)

/-! ## Document tree model

`extract_scores_js` walks the rendered DOM through `nextElementSibling`,
`parentElement`, `querySelectorAll` and `textContent`.  We model element and
text nodes; an element carries its `tagName` (upper-case, as in the DOM), its
`className` and `href` attribute, and its children in document order. -/

inductive Node where
  | text (s : String)
  | elem (tag cls href : String) (children : List Node)

/-- `tagName` (empty for text nodes). -/
def Node.tag : Node → String
  | .text _ => ""
  | .elem t _ _ _ => t

/-- `className` (empty for text nodes). -/
def Node.cls : Node → String
  | .text _ => ""
  | .elem _ c _ _ => c

/-- `href` attribute (empty for text nodes). -/
def Node.href : Node → String
  | .text _ => ""
  | .elem _ _ h _ => h

def Node.isElem : Node → Bool
  | .text _ => false
  | .elem _ _ _ _ => true

mutual
/-- DOM `textContent`: concatenation of all text descendants in document order
(also our model of `innerText` / `inner_text`). -/
def Node.textContent : Node → String
  | .text s => s
  | .elem _ _ _ cs => textContentList cs

def textContentList : List Node → String
  | [] => ""
  | c :: cs => c.textContent ++ textContentList cs
end

/-- The child at an index. -/
def childAt : List Node → Nat → Option Node
  | [], _ => none
  | c :: _, 0 => some c
  | _ :: cs, n + 1 => childAt cs n

/-- The node at a child-index path from the root (recursion on the path). -/
def nodeAt : Node → List Nat → Option Node
  | root, [] => some root
  | root, i :: p =>
    match root with
    | .text _ => none
    | .elem _ _ _ cs =>
      match childAt cs i with
      | some ch => nodeAt ch p
      | none => none

mutual
/-- Paths (in pre-order, i.e. document order) of all element nodes satisfying a
predicate — our model of `querySelectorAll` / `page.locator` result order. -/
def findPaths (pr : Node → Bool) : Node → List (List Nat)
  | .text _ => []
  | .elem t c h cs =>
    (if pr (.elem t c h cs) then [([] : List Nat)] else []) ++ findPathsL pr cs 0

def findPathsL (pr : Node → Bool) : List Node → Nat → List (List Nat)
  | [], _ => []
  | c :: cs, i => (findPaths pr c).map (fun p => i :: p) ++ findPathsL pr cs (i + 1)
end

/-- All siblings strictly after the node at `p`, in document order
(text siblings included; `nextElementSibling` chains filter them out). -/
def followingSiblings (root : Node) (p : List Nat) : List Node :=
  match p with
  | [] => []
  | _ :: _ =>
    match nodeAt root p.dropLast with
    | some (.elem _ _ _ cs) => cs.drop (p.getLastD 0 + 1)
    | _ => []

/-- The `nextElementSibling` chain of the node at `p`. -/
def elemSiblingsAfter (root : Node) (p : List Nat) : List Node :=
  (followingSiblings root p).filter Node.isElem

/-- The ancestor chain of the node at `p`: the node itself, its parent, …, the
root (the `parentElement` chain; the root is detached, so the chain stops there). -/
def ancestorChain (root : Node) (p : List Nat) : List Node :=
  ((List.range (p.length + 1)).reverse).filterMap (fun k => nodeAt root (p.take k))

/-- Membership of a node in the tree rooted at another node. -/
inductive InTree : Node → Node → Prop where
  | refl (n : Node) : InTree n n
  | child {n c : Node} {t cl h : String} {cs : List Node} :
      c ∈ cs → InTree n c → InTree n (.elem t cl h cs)

/-! ## Fixed configuration (`CATEGORIES`, `COMPANIES`, `COMPANY_SLUG`) -/

def CATEGORIES : List (String × String) :=
  [("risk-assessment", "Risk assessment"),
   ("scheming", "Scheming risk prevention"),
   ("safety-research", "Boosting safety research"),
   ("misuse", "Misuse prevention"),
   ("security", "Prep for extreme security"),
   ("information-sharing", "Risk info sharing"),
   ("planning", "Planning")]

def COMPANIES : List String :=
  ["Anthropic", "DeepMind", "OpenAI", "Meta", "xAI", "Microsoft", "DeepSeek"]

def COMPANY_SLUG : List (String × String) :=
  [("Anthropic", "anthropic"), ("DeepMind", "deepmind"), ("OpenAI", "openai"),
   ("Meta", "meta"), ("xAI", "xai"), ("Microsoft", "microsoft"),
   ("DeepSeek", "deepseek")]

/-- Python `dict.get` on an insertion-ordered association list: later writes to
the same key overwrite earlier ones, so the last matching entry wins. -/
def dictGet {α : Type} (l : List (String × α)) (k : String) : Option α :=
  (l.reverse.find? (fun pr => pr.1 = k)).map Prod.snd

/-! ## The v8 score extractor (`extract_scores_js`)

For the region between an `<h2>` and the next `<h2>` (cloned into a detached
`<div>`), and for each company: find the `a[href*="/cell/<cslug>/<catSlug>"]`
anchors; for each anchor climb at most 6 `parentElement` steps to a "card-ish"
container (falling back to `closest('a, div, li, article, section')`, the parent,
or the anchor itself), scan the container's `textContent` for `(\d+)\s*%`, then
up to 4 of the container's following element siblings, then the anchor itself;
the first hit for the first anchor that yields one wins. -/

/-- `isCardish`: the class list, lower-cased, mentions a grouping-container hint. -/
def isCardish (n : Node) : Bool :=
  match n with
  | .text _ => false
  | .elem _ cls _ _ =>
    let c := (lowerStr cls).toList
    hasSub "card".toList c || hasSub "grid".toList c || hasSub "panel".toList c ||
      hasSub "tile".toList c || hasSub "item".toList c

/-- Tags accepted by `closest('a, div, li, article, section')`. -/
def closTags : List String := ["A", "DIV", "LI", "ARTICLE", "SECTION"]

/-- Index (into the ancestor chain) of the container the climb selects:
the first card-ish node among the first 6 chain entries; otherwise the 7th
entry when the chain is that long; otherwise `closest(...)` from the anchor
(which, the anchor being an `<a>`, is the anchor itself), then the parent,
then the anchor. -/
def chosenIdx (chain : List Node) : Nat :=
  match (chain.take 6).findIdx? isCardish with
  | some k => k
  | none =>
    if 6 < chain.length then 6
    else
      match chain.findIdx? (fun n => decide (n.tag ∈ closTags)) with
      | some j => j
      | none => if 1 < chain.length then 1 else 0

/-- The container node selected for the anchor at path `p`. -/
def anchorContainer (root : Node) (p : List Nat) : Node :=
  ((ancestorChain root p).get? (chosenIdx (ancestorChain root p))).getD
    (Node.text "")

/-- The path of that container (the climb shortens the anchor's path). -/
def containerPath (root : Node) (p : List Nat) : List Nat :=
  p.take (p.length - chosenIdx (ancestorChain root p))

/-- `tryNode`: scan a node's `textContent` for the percent pattern. -/
def tryNode (n : Node) : Option Nat := findPercent n.textContent

/-- The sibling-scan tier: up to 4 following element siblings of the container. -/
def siblingScan (root : Node) (p : List Nat) : Option Nat :=
  ((elemSiblingsAfter root (containerPath root p)).take 4).findSome? tryNode

/-- The last-resort tier: the anchor's own text. -/
def anchorSelf (root : Node) (p : List Nat) : Option Nat :=
  tryNode ((nodeAt root p).getD (Node.text ""))

/-- Per-anchor resolution of v8: container scan, then sibling scan, then the
anchor itself; the first tier that yields a value wins. -/
def resolveAnchor (root : Node) (p : List Nat) : Option Nat :=
  match tryNode (anchorContainer root p) with
  | some v => some v
  | none =>
    match siblingScan root p with
    | some v => some v
    | none => anchorSelf root p

/-- `a[href*="/cell/<cslug>/<catSlug>"]`. -/
def isScoreAnchor (needle : String) (n : Node) : Bool :=
  match n with
  | .elem t _ hr _ => t = "A" && containsStr hr needle
  | .text _ => false

/-- The selector target for a company/category pair. -/
def cellNeedle (cslug catSlug : String) : String :=
  "/cell/" ++ cslug ++ "/" ++ catSlug

/-- One company's score in the region: the first anchor (in document order)
whose per-anchor resolution yields a value. -/
def companyScore (region : Node) (cslug catSlug : String) : Option Nat :=
  (findPaths (isScoreAnchor (cellNeedle cslug catSlug)) region).findSome?
    (resolveAnchor region)

/-- `extract_scores_js`: a score entry for every key of the company-slug map,
`null` (`none`) when no tier found a value. -/
def extractScores (region : Node) (catSlug : String)
    (slugMap : List (String × String)) : List (String × Option Nat) :=
  slugMap.map (fun cp => (cp.1, companyScore region cp.2 catSlug))

/-! ## Region slicing and subcategory weight (v8) -/

def isH2 (n : Node) : Bool := n.tag = "H2"

/-- The region nodes collected by `extract_scores_js`: walk the
`nextElementSibling` chain (text siblings are skipped by the DOM accessor)
until the next `H2` or the end of the parent. -/
def regionAfter (sibs : List Node) : List Node :=
  (sibs.filter Node.isElem).takeWhile (fun n => !isH2 n)

/-- The detached `<div>` the region nodes are cloned into. -/
def regionDiv (sibs : List Node) : Node :=
  Node.elem "DIV" "" "" (regionAfter sibs)

/-- `get_weight_js`: scan up to 8 following element siblings of the `<h2>` for
`Weighted NN% of category`; `null` when none matches. -/
def getWeight (sibs : List Node) : Option Nat :=
  ((sibs.filter Node.isElem).take 8).findSome?
    (fun n => findWeighted (strTrim n.textContent))

/-- A subcategory record as produced by `parse_category_page` of v8. -/
structure Subcat where
  name : String
  weight : Option Nat
  scores : List (String × Option Nat)
deriving DecidableEq

/-- `parse_category_page` of v8: for every `<h2>` with nonempty stripped text,
the weight from the lookahead window and the per-company scores from the
region up to the next `<h2>`. -/
def parseCategoryPage (root : Node) (slug : String) : List Subcat :=
  (findPaths isH2 root).filterMap (fun p =>
    match nodeAt root p with
    | none => none
    | some h =>
      let nm := strTrim h.textContent
      if nm = "" then none
      else
        let sibs := followingSiblings root p
        some { name := nm
               weight := getWeight sibs
               scores := extractScores (regionDiv sibs) slug COMPANY_SLUG })

/-- `get_category_weights` of v8 applied to the overview page's body text. -/
def getCategoryWeights (body : String) : List (String × Option Nat) :=
  CATEGORIES.map (fun st => (st.2, findCatWeight st.2 body))

/-! ## Cell-page model and rubric scraping (`scrape_subcategory_rubrics`)

The representative-entity ("cell") page is modelled as a flat list of items in
document order: headings (with rank), disclosure toggles, rubric blocks
(`div.text-sm.links`, carrying text, markup and a visibility flag) and other
content.  The toggle label is `Click to hide details/rubric` when EXPANDED and
`Click to show details/rubric` when COLLAPSED, so the combined
show-or-hide XPath of `click_near_toggle` matches a toggle in either state. -/

inductive CellItem where
  | heading (rank : Nat) (txt : String)
  | toggle (expanded : Bool)
  | rubric (txt html : String) (visible : Bool)
  | other (txt : String)
deriving DecidableEq

abbrev CellPage := List CellItem

def isToggle : CellItem → Bool
  | .toggle _ => true
  | _ => false

def isRubric : CellItem → Bool
  | .rubric _ _ _ => true
  | _ => false

/-- `page.locator("hN", has_text=needle)`: a heading of the given rank whose
text contains the needle (Playwright `has_text` is a case-insensitive
substring match). -/
def isHeadingMatch (rank : Nat) (needle : String) (it : CellItem) : Bool :=
  match it with
  | .heading r t => r = rank && containsCI t needle
  | _ => false

/-- `following::*[...][1]`: index of the first item strictly after `h`
satisfying the predicate. -/
def findAfter (pr : CellItem → Bool) (pg : CellPage) (h : Nat) : Option Nat :=
  match (pg.drop (h + 1)).findIdx? pr with
  | some k => some (h + 1 + k)
  | none => none

/-- Make the rubric at an index visible (used when a toggle expands). -/
def setRubricVisible (pg : CellPage) (r : Nat) : CellPage :=
  match pg.get? r with
  | some (.rubric tx hm _) => pg.set r (.rubric tx hm true)
  | _ => pg

/-- Modelled from the spec: the click transition of the external rendering
engine on a disclosure control is not part of this repository; spec §4.4
describes it as a two-state machine where activating a COLLAPSED control
expands it (revealing its rubric) and activating an already-EXPANDED control
fails with an error that means "already in the desired state", leaving the
page unchanged. -/
def activate (pg : CellPage) (t : Nat) : Except Unit CellPage :=
  match pg.get? t with
  | some (.toggle true) => .error ()
  | some (.toggle false) =>
    let pg1 := pg.set t (.toggle true)
    match findAfter isRubric pg1 t with
    | some r => .ok (setRubricVisible pg1 r)
    | none => .ok pg1
  | _ => .error ()

/-- `click_near_toggle` of v8: locate the first following element matching the
show-or-hide toggle text and click it once; any error (including "no toggle
found", where `.first.click` itself raises) is swallowed. -/
def clickNearToggle (pg : CellPage) (h : Nat) : CellPage :=
  match findAfter isToggle pg h with
  | none => pg
  | some t =>
    match activate pg t with
    | .ok pg2 => pg2
    | .error _ => pg

/-- The global fallback read: `page.locator("css=div.text-sm.links").first` —
existence, not visibility, is checked, and `inner_html`/`inner_text` read
hidden elements too. -/
def globalFallback (pg : CellPage) : Option String × Option String :=
  match pg.findSome? (fun it =>
    match it with
    | .rubric tx hm _ => some (tx, hm)
    | _ => none) with
  | some pr => (some pr.1, some pr.2)
  | none => (none, none)

/-- Read the rubric near a heading: the first following `div.text-sm.links`
if it becomes visible, otherwise (timeout) the global fallback; `(none, none)`
when that also fails.  Returns `(description, description_html)`. -/
def readRubricNear (pg : CellPage) (h : Nat) : Option String × Option String :=
  match findAfter isRubric pg h with
  | some r =>
    match pg.get? r with
    | some (.rubric tx hm true) => (some tx, some hm)
    | _ => globalFallback pg
  | none => globalFallback pg

/-- Heading resolution of v8 `scrape_subcategory_rubrics`: `h3` with the full
title, then `h2` with the full title, then `h3` with the part of the title
before the first colon. -/
def resolveHeading (pg : CellPage) (title : String) : Option Nat :=
  match pg.findIdx? (isHeadingMatch 3 title) with
  | some i => some i
  | none =>
    match pg.findIdx? (isHeadingMatch 2 title) with
    | some i => some i
    | none => pg.findIdx? (isHeadingMatch 3 (beforeColon title))

/-- One iteration of the v8 rubric loop: resolve the heading (recording
`(none, none)` under the full title when resolution fails), click the nearby
toggle, read the rubric — always keyed by the full subcategory title. -/
def processSubcat (pg : CellPage) (title : String) :
    CellPage × (String × (Option String × Option String)) :=
  match resolveHeading pg title with
  | none => (pg, (title, (none, none)))
  | some h =>
    let pg1 := clickNearToggle pg h
    (pg1, (title, readRubricNear pg1 h))

/-- `scrape_subcategory_rubrics` of v8: the page state (toggles it expanded)
persists across subcategories. -/
def scrapeRubrics (pg : CellPage) (subcats : List Subcat) :
    CellPage × List (String × (Option String × Option String)) :=
  subcats.foldl
    (fun acc sc =>
      let r := processSubcat acc.1 sc.name
      (r.1, acc.2 ++ [r.2]))
    (pg, [])

/-! ## Assembly and the v8 dataset builder (`build_dataset`)

A fetched, rendered page is a pair of views of the same document: the static
DOM tree (used by the category-page parsing) and the interactive cell-page
view (used by the rubric scraping).  Navigation either succeeds with the
rendered document or fails (`NavigationFailure`). -/

abbrev Doc := Node × CellPage

def overviewUrl : String := "categories"

def catUrl (slug : String) : String := "categories/" ++ slug

/-- The representative-entity page: always the xAI cell for the category. -/
def cellUrl (slug : String) : String := "cell/xai/" ++ slug

/-- A subcategory entry of the final v8 output. -/
structure SubRecord where
  name : String
  weight : Option Nat
  description : Option String
  description_html : Option String
  scores : List (String × Option Nat)
deriving DecidableEq

/-- A category entry of the final v8 output. -/
structure CatRecord where
  category : String
  weight : Option Nat
  subcategories : List SubRecord
deriving DecidableEq

/-- Merge one category: `rubrics.get(name, {}).get(...)` degrades to `None`
when the title is missing from the rubric mapping. -/
def assembleCat (title : String) (cw : Option Nat) (subcats : List Subcat)
    (rubs : List (String × (Option String × Option String))) : CatRecord :=
  { category := title
    weight := cw
    subcategories := subcats.map (fun sc =>
      let r := dictGet rubs sc.name
      { name := sc.name
        weight := sc.weight
        description := match r with | some pr => pr.1 | none => none
        description_html := match r with | some pr => pr.2 | none => none
        scores := sc.scores }) }

/-- The per-category loop of `build_dataset` (v8).  There is no `try`/`except`
around the loop body: any navigation failure propagates. -/
def buildCats (fetch : String → Except Unit Doc)
    (weights : List (String × Option Nat)) :
    List (String × String) → Except Unit (List CatRecord)
  | [] => .ok []
  | (slug, title) :: rest => do
    let d1 ← fetch (catUrl slug)
    let subcats := parseCategoryPage d1.1 slug
    let d2 ← fetch (cellUrl slug)
    let rubs := (scrapeRubrics d2.2 subcats).2
    let tail ← buildCats fetch weights rest
    .ok (assembleCat title
      (match dictGet weights title with | some w => w | none => none)
      subcats rubs :: tail)

/-- `build_dataset` of v8: category weights from the overview page, then the
per-category loop over the fixed `CATEGORIES` list. -/
def buildDataset (fetch : String → Except Unit Doc) :
    Except Unit (List CatRecord) := do
  let ov ← fetch overviewUrl
  buildCats fetch (getCategoryWeights ov.1.textContent) CATEGORIES

/-- Every URL `build_dataset` ever navigates to: the overview page, the seven
category pages, and the seven xAI cell pages. -/
def usedUrls : List String :=
  overviewUrl :: (CATEGORIES.map (fun st => catUrl st.1) ++
    CATEGORIES.map (fun st => cellUrl st.1))

/-! ## Serialization of the output (for byte-identity statements) -/

def renderOptNat : Option Nat → String
  | none => "null"
  | some n => toString n

def renderOptStr : Option String → String
  | none => "null"
  | some s => "\"" ++ s ++ "\""

def renderList (l : List String) : String :=
  String.intercalate "," l

def renderScores (l : List (String × Option Nat)) : String :=
  "\x7b" ++ renderList (l.map (fun pr => "\"" ++ pr.1 ++ "\":" ++ renderOptNat pr.2)) ++ "\x7d"

def renderSub (sc : SubRecord) : String :=
  "\x7b\"name\":" ++ renderOptStr (some sc.name) ++
    ",\"weight\":" ++ renderOptNat sc.weight ++
    ",\"description\":" ++ renderOptStr sc.description ++
    ",\"description_html\":" ++ renderOptStr sc.description_html ++
    ",\"scores\":" ++ renderScores sc.scores ++ "\x7d"

def renderCat (c : CatRecord) : String :=
  "\x7b\"category\":" ++ renderOptStr (some c.category) ++
    ",\"weight\":" ++ renderOptNat c.weight ++
    ",\"subcategories\":[" ++ renderList (c.subcategories.map renderSub) ++ "]\x7d"

/-- The bytes `json.dump` would write (up to formatting): a failure run writes
nothing, a success run writes the category list. -/
def renderDataset : Except Unit (List CatRecord) → String
  | .error _ => "NavigationFailure"
  | .ok cats => "[" ++ renderList (cats.map renderCat) ++ "]"

/-! ## The patched scraper (`ailabwatch_scraper_patched.py`) and v3's scores

The claim-relevant differences from v8: the weight lookahead runs over
`following::*[j]` for `j = 1..9` (all following elements, not just siblings),
the scores come from the `Image: Company\nNN%` label pattern over the joined
region text and companies without a match get **no** entry, the rubric mapping
is only written on success, and `main` wraps each category in `try`/`except`,
recording an empty mapping and continuing on failure. -/

/-- `following::*` of XPath: `q` is strictly after `p` in document order and
not a descendant of `p` (nor an ancestor). -/
def pathFollows : List Nat → List Nat → Bool
  | _ :: _, [] => false
  | [], _ => false
  | i :: ps, j :: qs => if i = j then pathFollows ps qs else decide (i < j)

/-- All elements on the `following::*` axis of the node at `p`, document order. -/
def followingElems (root : Node) (p : List Nat) : List Node :=
  ((findPaths Node.isElem root).filter (pathFollows p)).filterMap (nodeAt root)

/-- The v3/v4/patched label-pattern scores: an entry only for companies whose
pattern matches (`scores[comp] = int(...)` inside `if m:`). -/
def labelScores (joined : String) : List (String × Nat) :=
  COMPANIES.filterMap (fun c => (findLabelScore joined c).map (fun n => (c, n)))

/-- `"\n".join(...)`. -/
def joinNL : List String → String
  | [] => ""
  | [s] => s
  | s :: rest => s ++ "\n" ++ joinNL rest

/-- The joined inner texts (stripped, as in the patched scraper) of the
`following-sibling::*` span up to the next `H2`. -/
def joinedSpanText (root : Node) (p : List Nat) : String :=
  joinNL ((regionAfter (followingSiblings root p)).map
    (fun n => strTrim n.textContent))

/-- A subcategory record of the patched scraper / v3. -/
structure SubcatP where
  name : String
  weight : Option Nat
  scores : List (String × Nat)
deriving DecidableEq

/-- The subcategory extraction of the patched scraper: weight from the first 9
`following::*` elements (case-sensitive pattern), scores from the label
pattern on the joined span text. -/
def parseCategoryPageP (root : Node) : List SubcatP :=
  (findPaths isH2 root).filterMap (fun p =>
    match nodeAt root p with
    | none => none
    | some h =>
      let nm := strTrim h.textContent
      if nm = "" then none
      else
        some { name := nm
               weight := ((followingElems root p).take 9).findSome?
                 (fun n => findWeightedCS (strTrim n.textContent))
               scores := labelScores (joinedSpanText root p) })

/-- The patched toggle search: first the show variant, then the hide variant,
then a role-based search within the next 10 following items. -/
def findToggleP (pg : CellPage) (h : Nat) : Option Nat :=
  match findAfter (fun it => it = .toggle false) pg h with
  | some t => some t
  | none =>
    match findAfter (fun it => it = .toggle true) pg h with
    | some t => some t
    | none =>
      match ((pg.drop (h + 1)).take 10).findIdx? isToggle with
      | some k => some (h + 1 + k)
      | none => none

/-- The patched click: one attempt, all errors swallowed. -/
def clickToggleP (pg : CellPage) (h : Nat) : CellPage :=
  match findToggleP pg h with
  | none => pg
  | some t =>
    match activate pg t with
    | .ok pg2 => pg2
    | .error _ => pg

/-- The patched rubric read near a heading, as `(html, text)`; `none` when both
the local wait and the global fallback fail (no `rubrics[title]` write). -/
def readRubricP (pg : CellPage) (h : Nat) : Option (String × String) :=
  match findAfter isRubric pg h with
  | some r =>
    match pg.get? r with
    | some (.rubric tx hm true) => some (hm, tx)
    | _ => pg.findSome? (fun it =>
        match it with
        | .rubric tx hm _ => some (hm, tx)
        | _ => none)
  | none => pg.findSome? (fun it =>
      match it with
      | .rubric tx hm _ => some (hm, tx)
      | _ => none)

/-- One iteration of the patched rubric loop: `continue` (no entry) when the
heading cannot be resolved. -/
def processSubcatP (pg : CellPage) (title : String) :
    CellPage × Option (String × (String × String)) :=
  match resolveHeading pg title with
  | none => (pg, none)
  | some h =>
    let pg1 := clickToggleP pg h
    (pg1, (readRubricP pg1 h).map (fun r => (title, r)))

/-- The patched rubric loop over all subcategories. -/
def scrapeRubricsP (pg : CellPage) (subs : List SubcatP) :
    List (String × (String × String)) :=
  (subs.foldl
    (fun acc sc =>
      let r := processSubcatP acc.1 sc.name
      (r.1, match r.2 with | some e => acc.2 ++ [e] | none => acc.2))
    (pg, ([] : List (String × (String × String))))).2

/-- An entry of the patched per-category output mapping. -/
structure PRec where
  description_html : Option String
  description : Option String
  weight : Option Nat
  official_scores : List (String × Nat)
deriving DecidableEq

/-- `extract_category` of the patched scraper: category page, then cell page,
then the merge; only navigation can fail, and the failure propagates to
`main`. -/
def extractCategoryP (fetch : String → Except Unit Doc) (slug : String) :
    Except Unit (List (String × PRec)) := do
  let d1 ← fetch (catUrl slug)
  let subcats := parseCategoryPageP d1.1
  let d2 ← fetch (cellUrl slug)
  let rubs := scrapeRubricsP d2.2 subcats
  .ok (subcats.map (fun sc =>
    let r := dictGet rubs sc.name
    (sc.name,
      { description_html := r.map Prod.fst
        description := r.map Prod.snd
        weight := sc.weight
        official_scores := sc.scores })))

/-- `main` of the patched scraper: `try: out[cat] = extract_category(...)`
`except: out[cat] = {}` — per-category failures are caught, recorded as an
empty mapping, and the loop continues. -/
def mainPatched (fetch : String → Except Unit Doc) :
    List (String × List (String × PRec)) :=
  CATEGORIES.map (fun st =>
    (st.2,
      match extractCategoryP fetch st.1 with
      | .ok v => v
      | .error _ => []))

/-! ## The cascade in the spec's order (for comparison with the code)

Spec §4.3 orders the strategies: (1) label-pair pattern on the region's
flattened text, (2) identifier-link correlation with the score taken as *the
first percentage found within that reference's own content*, (3) container
ancestry climb, (4) sibling scan, (5) fallback to the reference node itself. -/

/-- The characters of the current line's remainder plus the next line
("immediately followed, within the next line"). -/
def untilSecondNL (l : List Char) : List Char :=
  let a := l.takeWhile (fun c => c ≠ '\n')
  let r := l.dropWhile (fun c => c ≠ '\n')
  match r with
  | '\n' :: rest => a ++ '\n' :: rest.takeWhile (fun c => c ≠ '\n')
  | _ => a

/-- Modelled from the spec: strategy 1, the label-pair pattern — the entity's
exact display label followed, within the next line of the flattened region
text, by a bare percentage. -/
def specTier1Aux (label : List Char) : List Char → Option Nat
  | [] => none
  | c :: cs =>
    if label.isPrefixOf (c :: cs) then
      match findPercentAux (untilSecondNL ((stripToken label (c :: cs)).getD [])) with
      | some n => some n
      | none => specTier1Aux label cs
    else specTier1Aux label cs

/-- Modelled from the spec: per-reference resolution in the spec's order —
the reference's own content first (tier 2), then the container climb (3), the
sibling scan (4) and the reference node itself (5). -/
def specResolveAnchor (root : Node) (p : List Nat) : Option Nat :=
  match anchorSelf root p with
  | some v => some v
  | none =>
    match tryNode (anchorContainer root p) with
    | some v => some v
    | none =>
      match siblingScan root p with
      | some v => some v
      | none => anchorSelf root p

/-- Modelled from the spec: the whole cascade in the spec's order, first
success wins. -/
def specOrderScore (region : Node) (label cslug catSlug : String) : Option Nat :=
  match specTier1Aux label.toList region.textContent.toList with
  | some v => some v
  | none =>
    (findPaths (isScoreAnchor (cellNeedle cslug catSlug)) region).findSome?
      (specResolveAnchor region)

/-! ## Bounded-percent predicates (for the range invariants)

`allPercentsLe b l` checks, at every suffix of `l`, that a maximal digit run
followed by `\s*%` has value at most `b`; `treePercentsLe` checks it for the
`textContent` of every node of a tree (and for its lower-cased, stripped form,
which is what the weight scanner sees). -/

def percentHeadLe (b : Nat) (l : List Char) : Bool :=
  match readDigits l with
  | some (n, r) => if (dropWs r).head? = some '%' then decide (n ≤ b) else true
  | none => true

def allPercentsLe (b : Nat) : List Char → Bool
  | [] => true
  | c :: cs => percentHeadLe b (c :: cs) && allPercentsLe b cs

/-- All percent figures in a node text (as the scanners see it) are `≤ b`. -/
def nodeTextLe (b : Nat) (n : Node) : Bool :=
  allPercentsLe b n.textContent.toList &&
    allPercentsLe b ((strTrim n.textContent).toList.map Char.toLower)

mutual
def treePercentsLe (b : Nat) : Node → Bool
  | .text s => allPercentsLe b s.toList &&
      allPercentsLe b ((strTrim s).toList.map Char.toLower)
  | .elem t c h cs => nodeTextLe b (.elem t c h cs) && treeListLe b cs

def treeListLe (b : Nat) : List Node → Bool
  | [] => true
  | c :: cs => treePercentsLe b c && treeListLe b cs
end

/-! ## Helper lemmas -/

theorem findSome_eq_none {α β : Type} (f : α → Option β) :
    ∀ l : List α, (∀ x ∈ l, f x = none) → l.findSome? f = none := by
  intro l h
  induction l with
  | nil => simp
  | cons a as ih =>
    rw [List.findSome?_cons, h a (by simp)]
    exact ih (fun x hx => h x (by simp [hx]))

theorem findSome_break {α β : Type} (f : α → Option β) (pre : List α) (a : α)
    (post : List α) (hpre : ∀ x ∈ pre, f x = none) {b : β} (ha : f a = some b) :
    (pre ++ a :: post).findSome? f = some b := by
  induction pre with
  | nil => simp [List.findSome?_cons, ha]
  | cons x xs ih =>
    rw [List.cons_append, List.findSome?_cons, hpre x (by simp)]
    exact ih (fun y hy => hpre y (by simp [hy]))

theorem findSome_mem {α β : Type} (f : α → Option β) :
    ∀ (l : List α) {b : β}, l.findSome? f = some b → ∃ a ∈ l, f a = some b := by
  intro l
  induction l with
  | nil => intro b h; simp at h
  | cons a as ih =>
    intro b h
    rw [List.findSome?_cons] at h
    cases hfa : f a with
    | some c =>
      rw [hfa] at h
      exact ⟨a, by simp, by simpa [hfa] using h⟩
    | none =>
      rw [hfa] at h
      obtain ⟨x, hx, hfx⟩ := ih h
      exact ⟨x, by simp [hx], hfx⟩

theorem takeWhile_all {α : Type} (p : α → Bool) :
    ∀ l : List α, (∀ x ∈ l, p x = true) → l.takeWhile p = l := by
  intro l h
  induction l with
  | nil => simp
  | cons a as ih =>
    rw [List.takeWhile_cons, h a (by simp)]
    simp [ih (fun x hx => h x (by simp [hx]))]

theorem takeWhile_break {α : Type} (p : α → Bool) (mid : List α) (b : α)
    (rest : List α) (hmid : ∀ x ∈ mid, p x = true) (hb : p b = false) :
    (mid ++ b :: rest).takeWhile p = mid := by
  induction mid with
  | nil => simp [List.takeWhile_cons, hb]
  | cons x xs ih =>
    rw [List.cons_append, List.takeWhile_cons, hmid x (by simp)]
    simp only [if_true]
    rw [ih (fun y hy => hmid y (by simp [hy]))]

/-! ### Suffix lemmas for the scanners -/

theorem stripToken_suffix :
    ∀ (t l r : List Char), stripToken t l = some r → r <:+ l := by
  intro t
  induction t with
  | nil =>
    intro l r h
    simp only [stripToken] at h
    injection h with h2
    exact h2 ▸ List.suffix_rfl
  | cons c cs ih =>
    intro l r h
    cases l with
    | nil => simp [stripToken] at h
    | cons d ds =>
      simp only [stripToken] at h
      split at h
      · exact (ih ds r h).trans (List.suffix_cons d ds)
      · exact absurd h (by simp)

theorem dropWs_suffix (l : List Char) : dropWs l <:+ l :=
  List.dropWhile_suffix isWs

theorem stripWs1_suffix (l r : List Char) (h : stripWs1 l = some r) : r <:+ l := by
  cases l with
  | nil => simp [stripWs1] at h
  | cons c cs =>
    simp only [stripWs1] at h
    split at h
    · cases h
      exact (dropWs_suffix cs).trans (List.suffix_cons c cs)
    · exact absurd h (by simp)

theorem takeDigits_snd_suffix : ∀ l : List Char, (takeDigits l).2 <:+ l := by
  intro l
  induction l with
  | nil => simp [takeDigits]
  | cons c cs ih =>
    simp only [takeDigits]
    split
    · exact ih.trans (List.suffix_cons c cs)
    · exact List.suffix_rfl

theorem readDigits_suffix (l : List Char) {n : Nat} {r : List Char}
    (h : readDigits l = some (n, r)) : r <:+ l := by
  simp only [readDigits] at h
  split at h
  · exact absurd h (by simp)
  · cases h
    exact takeDigits_snd_suffix l

/-! ### Bound lemmas: a scanned percent obeys the suffix-wise bound -/

theorem allPercentsLe_head {b : Nat} {l : List Char}
    (h : allPercentsLe b l = true) : percentHeadLe b l = true := by
  cases l with
  | nil => simp [percentHeadLe, readDigits, takeDigits]
  | cons c cs =>
    simp only [allPercentsLe, Bool.and_eq_true] at h
    exact h.1

theorem allPercentsLe_suffix {b : Nat} :
    ∀ {l s : List Char}, allPercentsLe b l = true → s <:+ l →
      allPercentsLe b s = true := by
  intro l
  induction l with
  | nil =>
    intro s h hs
    rw [List.suffix_nil.mp hs]
    exact h
  | cons c cs ih =>
    intro s h hs
    rcases hs with ⟨t, ht⟩
    cases t with
    | nil =>
      rw [List.nil_append] at ht
      rw [ht]
      exact h
    | cons d ds =>
      have : s <:+ cs := ⟨ds, by injection ht with h1 h2⟩
      simp only [allPercentsLe, Bool.and_eq_true] at h
      exact ih h.2 this

theorem percentAt_le {b n : Nat} {l : List Char} (hp : percentAt l = some n)
    (hb : percentHeadLe b l = true) : n ≤ b := by
  simp only [percentAt] at hp
  simp only [percentHeadLe] at hb
  cases hrd : readDigits l with
  | none => rw [hrd] at hp; exact absurd hp (by simp)
  | some pr =>
    obtain ⟨m, r⟩ := pr
    rw [hrd] at hp hb
    simp only at hp hb
    by_cases hc : (dropWs r).head? = some '%'
    · rw [if_pos hc] at hp hb
      cases hp
      simpa using hb
    · rw [if_neg hc] at hp
      exact absurd hp (by simp)

theorem findPercentAux_le {b : Nat} :
    ∀ {l : List Char} {n : Nat}, findPercentAux l = some n →
      allPercentsLe b l = true → n ≤ b := by
  intro l
  induction l with
  | nil => intro n h _; simp [findPercentAux] at h
  | cons c cs ih =>
    intro n h hb
    simp only [findPercentAux] at h
    simp only [allPercentsLe, Bool.and_eq_true] at hb
    split at h
    · rename_i m hm
      cases h
      exact percentAt_le hm hb.1
    · exact ih h hb.2

theorem weightedAt_le {w oc : List Char} {b n : Nat} {l : List Char}
    (h : weightedAt w oc l = some n) (hb : allPercentsLe b l = true) : n ≤ b := by
  simp only [weightedAt] at h
  split at h
  · exact absurd h (by simp)
  · rename_i r1 h1
    split at h
    · exact absurd h (by simp)
    · rename_i r2 h2
      split at h
      · exact absurd h (by simp)
      · rename_i pr h3
        split at h
        · rename_i r4
          split at h
          · exact absurd h (by simp)
          · rename_i r5 h5
            split at h
            · cases h
              -- the digits matched at the suffix r2 of l, followed directly by '%'
              have hs2 : r2 <:+ l :=
                (stripWs1_suffix r1 r2 h2).trans (stripToken_suffix w l r1 h1)
              have hb2 : percentHeadLe b r2 :=
                allPercentsLe_head (allPercentsLe_suffix hb hs2)
              simp only [percentHeadLe, h3] at hb2
              have hd : dropWs ('%' :: r4) = '%' :: r4 := by
                simp [dropWs, List.dropWhile_cons, isWs]
              rw [hd] at hb2
              simpa using hb2
            · exact absurd h (by simp)
        · exact absurd h (by simp)

theorem findWeightedAux_le {w oc : List Char} {b : Nat} :
    ∀ {l : List Char} {n : Nat}, findWeightedAux w oc l = some n →
      allPercentsLe b l = true → n ≤ b := by
  intro l
  induction l with
  | nil => intro n h _; simp [findWeightedAux] at h
  | cons c cs ih =>
    intro n h hb
    simp only [findWeightedAux] at h
    simp only [allPercentsLe, Bool.and_eq_true] at hb
    split at h
    · rename_i m hm
      cases h
      exact weightedAt_le hm (by simp [allPercentsLe, hb.1, hb.2])
    · exact ih h hb.2

/-! ### Tree-membership lemmas -/

theorem InTree.trans : ∀ {a b c : Node}, InTree a b → InTree b c → InTree a c := by
  intro a b c hab hbc
  induction hbc with
  | refl => exact hab
  | child hmem _ ih => exact InTree.child hmem ih

theorem childAt_mem : ∀ {cs : List Node} {i : Nat} {c : Node},
    childAt cs i = some c → c ∈ cs := by
  intro cs
  induction cs with
  | nil => intro i c h; simp [childAt] at h
  | cons d ds ih =>
    intro i c h
    cases i with
    | zero =>
      simp only [childAt] at h
      injection h with h2
      simp [h2]
    | succ j =>
      simp only [childAt] at h
      exact List.mem_cons_of_mem d (ih h)

theorem nodeAt_inTree : ∀ (p : List Nat) (root n : Node),
    nodeAt root p = some n → InTree n root := by
  intro p
  induction p with
  | nil =>
    intro root n h
    simp only [nodeAt] at h
    injection h with h2
    exact h2 ▸ InTree.refl n
  | cons i q ih =>
    intro root n h
    cases root with
    | text s => simp [nodeAt] at h
    | elem t c hr cs =>
      simp only [nodeAt] at h
      cases hch : childAt cs i with
      | none => rw [hch] at h; exact absurd h (by simp)
      | some ch =>
        rw [hch] at h
        exact InTree.child (childAt_mem hch) (ih ch n h)

theorem followingSiblings_inTree {root : Node} {p : List Nat} {m : Node}
    (h : m ∈ followingSiblings root p) : InTree m root := by
  simp only [followingSiblings] at h
  cases p with
  | nil => simp at h
  | cons i q =>
    cases hpar : nodeAt root (i :: q).dropLast with
    | none => rw [hpar] at h; simp at h
    | some par =>
      rw [hpar] at h
      cases par with
      | text s => simp at h
      | elem t c hr cs =>
        have hmem : m ∈ cs := List.mem_of_mem_drop h
        exact InTree.trans (InTree.child hmem (InTree.refl m))
          (nodeAt_inTree _ root _ hpar)

theorem treeListLe_mem {b : Nat} :
    ∀ {cs : List Node} {c : Node}, c ∈ cs → treeListLe b cs = true →
      treePercentsLe b c = true := by
  intro cs
  induction cs with
  | nil => intro c h; simp at h
  | cons d ds ih =>
    intro c h hl
    simp only [treeListLe, Bool.and_eq_true] at hl
    rcases List.mem_cons.mp h with h1 | h2
    · exact h1 ▸ hl.1
    · exact ih h2 hl.2

theorem nodeTextLe_of_treeLe {b : Nat} :
    ∀ {n : Node}, treePercentsLe b n = true → nodeTextLe b n = true := by
  intro n h
  cases n with
  | text s =>
    simp only [treePercentsLe] at h
    simpa [nodeTextLe, Node.textContent] using h
  | elem t c hr cs =>
    simp only [treePercentsLe, Bool.and_eq_true] at h
    exact h.1

theorem treePercentsLe_of_inTree {b : Nat} {n root : Node}
    (hin : InTree n root) (h : treePercentsLe b root = true) :
    treePercentsLe b n = true := by
  induction hin with
  | refl => exact h
  | child hmem _ ih =>
    simp only [treePercentsLe, Bool.and_eq_true] at h
    exact ih (treeListLe_mem hmem h.2)

theorem tryNode_le {b v : Nat} {n : Node} (h : tryNode n = some v)
    (hb : nodeTextLe b n = true) : v ≤ b := by
  simp only [nodeTextLe, Bool.and_eq_true] at hb
  exact findPercentAux_le h hb.1

/-! ## Claim C4: the region slicer -/

/-- C4: for every heading node, the region slicer of `extract_scores_js`
(`while (n && n.tagName !== 'H2')` over the `nextElementSibling` chain) returns
exactly the element siblings strictly after the heading and strictly before the
next sibling `H2` — in document order, never descending into intervening
nodes' descendants (only the sibling list is consulted) — the whole remaining
sibling list when no such `H2` exists, and the empty region when the next
element sibling is immediately an `H2`. -/
theorem C4_region_slicer (sibs mid rest : List Node) (h : Node) :
    (sibs.filter Node.isElem = mid ++ h :: rest → isH2 h = true →
      (∀ x ∈ mid, isH2 x = false) → regionAfter sibs = mid)
  ∧ ((∀ x ∈ sibs.filter Node.isElem, isH2 x = false) →
      regionAfter sibs = sibs.filter Node.isElem)
  ∧ (sibs.filter Node.isElem = h :: rest → isH2 h = true →
      regionAfter sibs = []) := by
  refine ⟨?_, ?_, ?_⟩
  · intro hf hh hmid
    unfold regionAfter
    rw [hf]
    exact takeWhile_break _ mid h rest (fun x hx => by simp [hmid x hx]) (by simp [hh])
  · intro hall
    unfold regionAfter
    exact takeWhile_all _ _ (fun x hx => by simp [hall x hx])
  · intro hf hh
    unfold regionAfter
    rw [hf, List.takeWhile_cons]
    simp [hh]

def c4p : Node := Node.elem "P" "" "" [Node.text "content-a"]
def c4q : Node := Node.elem "UL" "" "" [Node.text "content-b"]
def c4h2 : Node := Node.elem "H2" "" "" [Node.text "Next subcat"]
def c4tail : Node := Node.elem "OL" "" "" []
def c4sibs : List Node := [Node.text "ws", c4p, c4q, c4h2, c4tail]
def c4adj : List Node := [Node.text "ws", c4h2, c4p]

/-- Witness for C4 at a concrete sibling list (and the adjacent-headings case). -/
theorem C4_region_slicer_witness :
    regionAfter c4sibs = [c4p, c4q] ∧ regionAfter c4adj = [] := by
  constructor
  · exact (C4_region_slicer c4sibs [c4p, c4q] [c4tail] c4h2).1 rfl (by decide)
      (by decide)
  · exact (C4_region_slicer c4adj [] [c4p] c4h2).2.2 rfl (by decide)

/-! ## Claim C6: the subcategory-weight lookahead window -/

def c6filler : Node := Node.elem "DIV" "" "" [Node.text "filler"]
def c6target : Node := Node.elem "P" "" "" [Node.text "Weighted 55% of category"]
def c6sibs : List Node := List.replicate 8 c6filler ++ [c6target]

/-- C6 counterexample: the v8 lookahead window is 8 element siblings, not
"roughly 10–14": a `Weighted 55% of category` marker on the 9th element
sibling — inside any 10-to-14-element window — is missed, and the weight
comes out `none`. -/
theorem C6_window_counterexample :
    ((c6sibs.filter Node.isElem).get? 8).map
        (fun n => findWeighted (strTrim n.textContent)) = some (some 55)
  ∧ getWeight c6sibs = none := by
  constructor
  · rfl
  · rfl

/-- C6 amended: `get_weight_js` of v8 scans a bounded lookahead window of 8
following element siblings (v3 scans 11 and the patched scraper 9 following
elements); within the window the first match wins, and when nothing in the
window matches the weight is the explicit unknown value `none`, never 0. -/
theorem C6_weight_window (sibs : List Node) :
    ((∀ n ∈ (sibs.filter Node.isElem).take 8,
        findWeighted (strTrim n.textContent) = none) → getWeight sibs = none)
  ∧ (∀ pre n post w, (sibs.filter Node.isElem).take 8 = pre ++ n :: post →
      (∀ m ∈ pre, findWeighted (strTrim m.textContent) = none) →
      findWeighted (strTrim n.textContent) = some w →
      getWeight sibs = some w) := by
  constructor
  · intro hall
    unfold getWeight
    exact findSome_eq_none _ _ hall
  · intro pre n post w hsplit hpre hn
    unfold getWeight
    rw [hsplit]
    exact findSome_break _ pre n post hpre hn

def c6wpre : Node := Node.elem "DIV" "" "" [Node.text "no marker here"]
def c6whit : Node := Node.elem "P" "" "" [Node.text "Weighted 40% of category"]

/-- Witness for C6 amended: an empty window yields `none`; a first match on the
second element sibling yields its value. -/
theorem C6_weight_window_witness :
    getWeight ([] : List Node) = none ∧
      getWeight [c6wpre, c6whit] = some 40 := by
  constructor
  · exact (C6_weight_window []).1 (by decide)
  · exact (C6_weight_window [c6wpre, c6whit]).2 [c6wpre] c6whit [] 40 rfl
      (by decide) (by decide)

/-! ## Claim C5: the [0,100] range invariant -/

theorem tryNode_default : tryNode (Node.text "") = none := rfl

theorem anchorContainer_le {b v : Nat} {region : Node} {p : List Nat}
    (h : tryNode (anchorContainer region p) = some v)
    (hb : treePercentsLe b region = true) : v ≤ b := by
  unfold anchorContainer at h
  cases hg : (ancestorChain region p).get? (chosenIdx (ancestorChain region p)) with
  | none =>
    rw [hg] at h
    simp only [Option.getD_none] at h
    rw [tryNode_default] at h
    exact absurd h (by simp)
  | some cont =>
    rw [hg] at h
    simp only [Option.getD_some] at h
    have hmem := List.get?_mem hg
    unfold ancestorChain at hmem
    obtain ⟨k, _, hnode⟩ := List.mem_filterMap.mp hmem
    exact tryNode_le h
      (nodeTextLe_of_treeLe (treePercentsLe_of_inTree
        (nodeAt_inTree _ _ _ hnode) hb))

theorem siblingScan_le {b v : Nat} {region : Node} {p : List Nat}
    (h : siblingScan region p = some v)
    (hb : treePercentsLe b region = true) : v ≤ b := by
  unfold siblingScan at h
  obtain ⟨nd, hmem, hf⟩ := findSome_mem _ _ h
  have : nd ∈ followingSiblings region (containerPath region p) :=
    List.mem_of_mem_filter (List.mem_of_mem_take hmem)
  exact tryNode_le hf
    (nodeTextLe_of_treeLe (treePercentsLe_of_inTree
      (followingSiblings_inTree this) hb))

theorem anchorSelf_le {b v : Nat} {region : Node} {p : List Nat}
    (h : anchorSelf region p = some v)
    (hb : treePercentsLe b region = true) : v ≤ b := by
  unfold anchorSelf at h
  cases hg : nodeAt region p with
  | none =>
    rw [hg] at h
    simp only [Option.getD_none] at h
    rw [tryNode_default] at h
    exact absurd h (by simp)
  | some nd =>
    rw [hg] at h
    simp only [Option.getD_some] at h
    exact tryNode_le h
      (nodeTextLe_of_treeLe (treePercentsLe_of_inTree
        (nodeAt_inTree _ _ _ hg) hb))

theorem resolveAnchor_le {b v : Nat} {region : Node} {p : List Nat}
    (h : resolveAnchor region p = some v)
    (hb : treePercentsLe b region = true) : v ≤ b := by
  unfold resolveAnchor at h
  cases h1 : tryNode (anchorContainer region p) with
  | some m =>
    rw [h1] at h
    simp only at h
    injection h with h2
    exact h2 ▸ anchorContainer_le h1 hb
  | none =>
    rw [h1] at h
    simp only at h
    cases h2 : siblingScan region p with
    | some m =>
      rw [h2] at h
      simp only at h
      injection h with h3
      exact h3 ▸ siblingScan_le h2 hb
    | none =>
      rw [h2] at h
      simp only at h
      exact anchorSelf_le h hb

theorem companyScore_le {b v : Nat} {region : Node} {cslug catSlug : String}
    (h : companyScore region cslug catSlug = some v)
    (hb : treePercentsLe b region = true) : v ≤ b := by
  unfold companyScore at h
  obtain ⟨p, _, hp⟩ := findSome_mem _ _ h
  exact resolveAnchor_le hp hb

theorem percentWeightAt_le {b n : Nat} {l : List Char}
    (hp : percentWeightAt l = some n) (hb : percentHeadLe b l = true) : n ≤ b := by
  simp only [percentWeightAt] at hp
  simp only [percentHeadLe] at hb
  cases hrd : readDigits l with
  | none => rw [hrd] at hp; exact absurd hp (by simp)
  | some pr =>
    obtain ⟨m, r⟩ := pr
    rw [hrd] at hp hb
    simp only at hp hb
    by_cases hc : (dropWs r).head? = some '%'
    · rw [if_pos hc] at hp hb
      split at hp
      · injection hp with h2
        exact h2 ▸ (by simpa using hb)
      · exact absurd hp (by simp)
    · rw [if_neg hc] at hp
      exact absurd hp (by simp)

theorem gapScan_le {b : Nat} :
    ∀ (fuel : Nat) {l : List Char} {n : Nat}, gapScan fuel l = some n →
      allPercentsLe b l = true → n ≤ b := by
  intro fuel
  induction fuel with
  | zero =>
    intro l n h hb
    unfold gapScan at h
    exact percentWeightAt_le h (allPercentsLe_head hb)
  | succ f ih =>
    intro l n h hb
    cases l with
    | nil =>
      unfold gapScan at h
      simp [percentWeightAt, readDigits, takeDigits] at h
    | cons c cs =>
      unfold gapScan at h
      cases hp : percentWeightAt (c :: cs) with
      | some m =>
        rw [hp] at h
        injection h with h2
        exact h2 ▸ percentWeightAt_le hp (allPercentsLe_head hb)
      | none =>
        rw [hp] at h
        simp only at h
        simp only [allPercentsLe, Bool.and_eq_true] at hb
        exact ih h hb.2

theorem findCatWeightAux_le {needle : List Char} {b : Nat} :
    ∀ {l : List Char} {n : Nat}, findCatWeightAux needle l = some n →
      allPercentsLe b l = true → n ≤ b := by
  intro l
  induction l with
  | nil => intro n h _; simp [findCatWeightAux] at h
  | cons c cs ih =>
    intro n h hb
    have hb' := hb
    simp only [allPercentsLe, Bool.and_eq_true] at hb'
    simp only [findCatWeightAux] at h
    split at h
    · cases hg : gapScan 300 ((stripToken needle (c :: cs)).getD []) with
      | some m =>
        rw [hg] at h
        injection h with h2
        subst h2
        cases hst : stripToken needle (c :: cs) with
        | none =>
          rw [hst] at hg
          simp only [Option.getD_none] at hg
          exact gapScan_le 300 hg rfl
        | some r =>
          rw [hst] at hg
          simp only [Option.getD_some] at hg
          exact gapScan_le 300 hg
            (allPercentsLe_suffix hb (stripToken_suffix needle (c :: cs) r hst))
      | none =>
        rw [hg] at h
        exact ih h hb'.2
    · exact ih h hb'.2

theorem findCatWeight_le {title body : String} {b n : Nat}
    (h : findCatWeight title body = some n)
    (hb : allPercentsLe b (body.toList.map Char.toLower) = true) : n ≤ b := by
  unfold findCatWeight at h
  exact findCatWeightAux_le h hb

def c5bad : Node := Node.elem "P" "" "" [Node.text "Weighted 150% of category"]

/-- C5 counterexample: neither the weight parser nor any caller checks the
upper bound — a page text `Weighted 150% of category` yields the weight 150,
outside [0,100]. -/
theorem C5_range_counterexample :
    getWeight [c5bad] = some 150 ∧ ¬ (150 : Nat) ≤ 100 := by
  exact ⟨rfl, by decide⟩

/-- C5 amended: the extracted weights and scores are nonnegative integers with
no upper bound enforced by the code; whenever every percentage figure appearing
in the scanned page texts is at most 100, every present subcategory weight,
every present score, and every present category weight (parsed by
`get_category_weights` from the overview body text) is in [0,100]. -/
theorem C5_bounded_of_page_bounded (sibs : List Node) (region : Node)
    (slug c body t : String) (w v cw : Nat)
    (h1 : ∀ n ∈ sibs, treePercentsLe 100 n = true)
    (h2 : treePercentsLe 100 region = true)
    (h3 : allPercentsLe 100 (body.toList.map Char.toLower) = true) :
    (getWeight sibs = some w → w ≤ 100)
  ∧ (dictGet (extractScores region slug COMPANY_SLUG) c = some (some v) →
      v ≤ 100)
  ∧ (dictGet (getCategoryWeights body) t = some (some cw) → cw ≤ 100) := by
  refine ⟨?_, ?_, ?_⟩
  · intro hw
    unfold getWeight at hw
    obtain ⟨nd, hmem, hf⟩ := findSome_mem _ _ hw
    have hnd : nd ∈ sibs :=
      List.mem_of_mem_filter (List.mem_of_mem_take hmem)
    have hle := nodeTextLe_of_treeLe (h1 nd hnd)
    simp only [nodeTextLe, Bool.and_eq_true] at hle
    unfold findWeighted at hf
    exact findWeightedAux_le hf hle.2
  · intro hv
    unfold dictGet at hv
    obtain ⟨pr, hfind, hsnd⟩ := Option.map_eq_some'.mp hv
    have hmem : pr ∈ extractScores region slug COMPANY_SLUG :=
      List.mem_reverse.mp (List.mem_of_find?_eq_some hfind)
    unfold extractScores at hmem
    obtain ⟨cp, _, hcp⟩ := List.mem_map.mp hmem
    have : companyScore region cp.2 slug = some v := by
      rw [← hcp] at hsnd
      exact hsnd
    exact companyScore_le this h2
  · intro hcw
    unfold dictGet at hcw
    obtain ⟨pr, hfind, hsnd⟩ := Option.map_eq_some'.mp hcw
    have hmem : pr ∈ getCategoryWeights body :=
      List.mem_reverse.mp (List.mem_of_find?_eq_some hfind)
    unfold getCategoryWeights at hmem
    obtain ⟨st, _, hst⟩ := List.mem_map.mp hmem
    have : findCatWeight st.2 body = some cw := by
      rw [← hst] at hsnd
      exact hsnd
    exact findCatWeight_le this h3

def c5oksibs : List Node := [Node.elem "P" "" "" [Node.text "Weighted 40% of category"]]
def c5okregion : Node := Node.elem "DIV" "" ""
  [Node.elem "DIV" "card" ""
    [Node.elem "A" "" "/cell/anthropic/planning" [Node.text "70%"]]]
def c5okbody : String := "Risk assessment overview text 25 % weight"

/-- Witness for C5 amended at a concrete bounded page. -/
theorem C5_bounded_of_page_bounded_witness :
    getWeight c5oksibs = some 40 ∧ (40 : Nat) ≤ 100 ∧
      dictGet (extractScores c5okregion "planning" COMPANY_SLUG) "Anthropic" =
        some (some 70) ∧ (70 : Nat) ≤ 100 ∧
      dictGet (getCategoryWeights c5okbody) "Risk assessment" =
        some (some 25) ∧ (25 : Nat) ≤ 100 := by
  refine ⟨by decide, ?_, by decide, ?_, by decide, ?_⟩
  · exact (C5_bounded_of_page_bounded c5oksibs c5okregion "planning" "Anthropic"
      c5okbody "Risk assessment" 40 70 25 (by decide) (by decide) (by decide)).1
      (by decide)
  · exact (C5_bounded_of_page_bounded c5oksibs c5okregion "planning" "Anthropic"
      c5okbody "Risk assessment" 40 70 25 (by decide) (by decide)
      (by decide)).2.1 (by decide)
  · exact (C5_bounded_of_page_bounded c5oksibs c5okregion "planning" "Anthropic"
      c5okbody "Risk assessment" 40 70 25 (by decide) (by decide)
      (by decide)).2.2 (by decide)

/-! ## Claim C3: fixed key set and absent-means-unknown -/

/-- C3 counterexample: in v3's `_extract_subcategories` (and v4/patched), the
scores mapping is built by `if m: scores[comp] = ...` — a company whose label
pattern does not match gets **no entry at all**, so the key set is not fixed
in advance: on a region whose joined text is empty, the configured company
`Anthropic` has no entry. -/
theorem C3_fixed_keys_counterexample :
    dictGet (labelScores "") "Anthropic" = none ∧ "Anthropic" ∈ COMPANIES := by
  exact ⟨by decide, by decide⟩

/-- C3 amended: in v8's `extract_scores_js`, the key set is fixed in advance
(one entry per configured company, in configuration order) and a company with
no matching anchor is recorded as `null`, never 0; in v3/v4/patched the
per-company entry exists only when the label pattern matched, with exactly the
matched value — absent entries mean "not found" and are never coerced to 0 in
either family. -/
theorem C3_scores_keys (region : Node) (slug joined : String) :
    ((extractScores region slug COMPANY_SLUG).map Prod.fst = COMPANIES)
  ∧ (∀ c cslug, (c, cslug) ∈ COMPANY_SLUG →
      (c, companyScore region cslug slug) ∈ extractScores region slug COMPANY_SLUG)
  ∧ (∀ cslug, findPaths (isScoreAnchor (cellNeedle cslug slug)) region = [] →
      companyScore region cslug slug = none)
  ∧ (∀ c n, dictGet (labelScores joined) c = some n →
      findLabelScore joined c = some n) := by
  refine ⟨?_, ?_, ?_, ?_⟩
  · unfold extractScores
    rw [List.map_map]
    rfl
  · intro c cslug hmem
    unfold extractScores
    exact List.mem_map.mpr ⟨(c, cslug), hmem, rfl⟩
  · intro cslug hempty
    unfold companyScore
    rw [hempty]
    rfl
  · intro c n h
    unfold dictGet at h
    obtain ⟨pr, hfind, hsnd⟩ := Option.map_eq_some'.mp h
    have hmem : pr ∈ labelScores joined :=
      List.mem_reverse.mp (List.mem_of_find?_eq_some hfind)
    unfold labelScores at hmem
    obtain ⟨c', _, hc'⟩ := List.mem_filterMap.mp hmem
    obtain ⟨m, hm, hpair⟩ := Option.map_eq_some'.mp hc'
    have hkey := List.find?_some hfind
    rw [← hpair] at hkey hsnd
    simp only at hkey hsnd
    have hc : c' = c := by simpa using hkey
    rw [← hc, ← hsnd]
    exact hm

def c3region : Node := Node.elem "DIV" "" "" [Node.text "nothing here"]

/-- Witness for C3 amended at a concrete empty region and a concrete joined
text with one label match. -/
theorem C3_scores_keys_witness :
    ((extractScores c3region "misuse" COMPANY_SLUG).map Prod.fst = COMPANIES)
  ∧ ("Anthropic", companyScore c3region "anthropic" "misuse") ∈
      extractScores c3region "misuse" COMPANY_SLUG
  ∧ companyScore c3region "anthropic" "misuse" = none
  ∧ findLabelScore "Image: OpenAI\n60%" "OpenAI" = some 60 := by
  refine ⟨(C3_scores_keys c3region "misuse" "").1, ?_, ?_, ?_⟩
  · exact (C3_scores_keys c3region "misuse" "").2.1 "Anthropic" "anthropic"
      (by decide)
  · exact (C3_scores_keys c3region "misuse" "").2.2.1 "anthropic" (by decide)
  · exact (C3_scores_keys c3region "misuse" "Image: OpenAI\n60%").2.2.2
      "OpenAI" 60 (by decide)

/-! ## Claim C2: the order of the score-resolution cascade -/

def c2region : Node := Node.elem "DIV" "" ""
  [Node.elem "DIV" "score-card" ""
    [Node.text "70% ",
     Node.elem "A" "" "/cell/anthropic/misuse" [Node.text "10%"]]]

/-- C2 counterexample: on a region whose card container shows `70%` before an
anchor whose own content shows `10%`, the spec's order (identifier-link
correlation — the first percentage within the reference's own content — before
the container climb) yields 10, but `extract_scores_js` of v8 scans the
container *first* and yields 70.  v8 also has no label-pair tier at all. -/
theorem C2_order_counterexample :
    companyScore c2region "anthropic" "misuse" = some 70
  ∧ specOrderScore c2region "Anthropic" "anthropic" "misuse" = some 10
  ∧ (70 : Nat) ≠ 10 := by
  exact ⟨by decide, by decide, by decide⟩

/-- C2 amended: in v8 the per-reference strategies are tried in the order
container-ancestry climb, then sibling scan, then the reference node's own
content (there is no label-pair tier; the label-pair pattern exists only in
the v3/v4/patched family, and the reference-content strategy is the *last*
resort, not the second); within this order the first strategy that yields a
percentage determines the score, no later tier overrides an earlier success,
and the first reference (in document order) to yield a value wins. -/
theorem C2_cascade_order (region : Node) (cslug catSlug : String)
    (p : List Nat) (v : Nat) :
    (tryNode (anchorContainer region p) = some v →
      resolveAnchor region p = some v)
  ∧ (tryNode (anchorContainer region p) = none → siblingScan region p = some v →
      resolveAnchor region p = some v)
  ∧ (tryNode (anchorContainer region p) = none → siblingScan region p = none →
      resolveAnchor region p = anchorSelf region p)
  ∧ (∀ pre post,
      findPaths (isScoreAnchor (cellNeedle cslug catSlug)) region = pre ++ p :: post →
      (∀ q ∈ pre, resolveAnchor region q = none) →
      resolveAnchor region p = some v →
      companyScore region cslug catSlug = some v) := by
  refine ⟨?_, ?_, ?_, ?_⟩
  · intro h
    unfold resolveAnchor
    rw [h]
  · intro h1 h2
    unfold resolveAnchor
    rw [h1, h2]
  · intro h1 h2
    unfold resolveAnchor
    rw [h1, h2]
  · intro pre post hsplit hpre hp
    unfold companyScore
    rw [hsplit]
    exact findSome_break _ pre p post hpre hp

/-- Witness for C2 amended on the concrete region: the container tier succeeds
with 70 and the single reference wins. -/
theorem C2_cascade_order_witness :
    resolveAnchor c2region [0, 1] = some 70 ∧
      companyScore c2region "anthropic" "misuse" = some 70 := by
  constructor
  · exact (C2_cascade_order c2region "anthropic" "misuse" [0, 1] 70).1 (by decide)
  · exact (C2_cascade_order c2region "anthropic" "misuse" [0, 1] 70).2.2.2
      [] [] (by decide) (by decide) ((C2_cascade_order c2region "anthropic"
        "misuse" [0, 1] 70).1 (by decide))

/-! ## Claim C7: activation on an already-EXPANDED control -/

/-- C7: when the first matching disclosure control after the heading is already
EXPANDED, `click_near_toggle` attempts its single click, the resulting error is
swallowed ("already in the desired state" — the activation transition is
modelled from spec §4.4), the page state is unchanged, and the rubric content
subsequently read is therefore unchanged as well. -/
theorem C7_toggle_idempotent (pg : CellPage) (h t : Nat)
    (h1 : findAfter isToggle pg h = some t)
    (h2 : pg.get? t = some (.toggle true)) :
    clickNearToggle pg h = pg ∧
      readRubricNear (clickNearToggle pg h) h = readRubricNear pg h := by
  have ha : activate pg t = Except.error () := by
    unfold activate
    rw [h2]
  have hc : clickNearToggle pg h = pg := by
    unfold clickNearToggle
    rw [h1]
    simp only [ha]
  exact ⟨hc, by rw [hc]⟩

def c7page : CellPage :=
  [.heading 3 "Evals", .toggle true, .rubric "rubric-text" "rubric-html" true]

/-- Witness for C7 at a concrete expanded page. -/
theorem C7_toggle_idempotent_witness :
    clickNearToggle c7page 0 = c7page ∧
      readRubricNear (clickNearToggle c7page 0) 0 = readRubricNear c7page 0 :=
  C7_toggle_idempotent c7page 0 1 (by decide) (by decide)

/-! ## Claim C8: rubric-reader title resolution -/

theorem findIdx_go_none {α : Type} (p : α → Bool) :
    ∀ (l : List α) (i : Nat), (∀ x ∈ l, p x = false) →
      List.findIdx? p l i = none := by
  intro l
  induction l with
  | nil => intro i _; rfl
  | cons a as ih =>
    intro i h
    rw [List.findIdx?_cons, h a (by simp)]
    simp only [Bool.false_eq_true, if_false]
    exact ih (i + 1) (fun x hx => h x (by simp [hx]))

/-- C8: the rubric reader resolves a subcategory title by trying, in order, the
exact title against `h3`, the title against `h2`, then the title's
before-the-colon part against `h3`; a resolution that succeeds only through
the colon-part fallback still records the rubric under the full title (the
mapping key is always the full title), and when every heading step fails —
or the heading is found but neither the local rubric block nor the
document-wide `div.text-sm.links` fallback exists — both rubric fields are
recorded as `none`. -/
theorem C8_rubric_resolution (pg : CellPage) (title : String) (j : Nat) :
    ((processSubcat pg title).2.1 = title)
  ∧ (pg.findIdx? (isHeadingMatch 3 title) = none →
      pg.findIdx? (isHeadingMatch 2 title) = none →
      pg.findIdx? (isHeadingMatch 3 (beforeColon title)) = some j →
      processSubcat pg title =
        (clickNearToggle pg j,
          (title, readRubricNear (clickNearToggle pg j) j)))
  ∧ (resolveHeading pg title = none →
      (processSubcat pg title).2.2 = (none, none))
  ∧ (resolveHeading pg title = some j →
      (∀ it ∈ clickNearToggle pg j, isRubric it = false) →
      (processSubcat pg title).2.2 = (none, none)) := by
  refine ⟨?_, ?_, ?_, ?_⟩
  · unfold processSubcat
    cases hr : resolveHeading pg title with
    | none => rfl
    | some h => rfl
  · intro ha hb hc
    have hr : resolveHeading pg title = some j := by
      unfold resolveHeading
      rw [ha, hb, hc]
    unfold processSubcat
    rw [hr]
  · intro hr
    unfold processSubcat
    rw [hr]
  · intro hr hnor
    unfold processSubcat
    rw [hr]
    simp only
    unfold readRubricNear
    have hfa : findAfter isRubric (clickNearToggle pg j) j = none := by
      unfold findAfter
      rw [findIdx_go_none isRubric _ 0
        (fun x hx => hnor x (List.mem_of_mem_drop hx))]
    rw [hfa]
    unfold globalFallback
    rw [findSome_eq_none _ _ (fun it hit => by
      have := hnor it hit
      cases it with
      | rubric tx hm vis => simp [isRubric] at this
      | heading r t => rfl
      | toggle e => rfl
      | other t => rfl)]

def c8title : String := "Evals: domains, quality, elicitation"
def c8page : CellPage :=
  [.heading 3 "Evals", .toggle false, .rubric "desc-evals" "html-evals" false]
def c8bare : CellPage := [.heading 3 "Evals"]

/-- Witness for C8: the colon-part fallback resolves `"Evals"` for the full
title and records under the full title; an empty page records `(none, none)`;
a page with a heading but no rubric block anywhere records `(none, none)`. -/
theorem C8_rubric_resolution_witness :
    (processSubcat c8page c8title).2.1 = c8title
  ∧ processSubcat c8page c8title =
      (clickNearToggle c8page 0,
        (c8title, readRubricNear (clickNearToggle c8page 0) 0))
  ∧ (processSubcat ([] : CellPage) c8title).2.2 = (none, none)
  ∧ (processSubcat c8bare "Evals").2.2 = (none, none) := by
  refine ⟨(C8_rubric_resolution c8page c8title 0).1, ?_, ?_, ?_⟩
  · exact (C8_rubric_resolution c8page c8title 0).2.1 (by decide) (by decide)
      (by decide)
  · exact (C8_rubric_resolution [] c8title 0).2.2.1 (by decide)
  · exact (C8_rubric_resolution c8bare "Evals" 0).2.2.2 (by decide) (by decide)

/-! ## Claim C1: per-category failure handling of the dataset builders -/

def emptyDoc : Doc := (Node.elem "BODY" "" "" [], ([] : CellPage))

/-- A site where only the `scheming` category page fails to load. -/
def badFetch : String → Except Unit Doc :=
  fun u => if u = catUrl "scheming" then .error () else .ok emptyDoc

/-- C1 counterexample: `build_dataset` of v8 has **no** try/except around the
per-category loop — when a single category page (here `categories/scheming`)
fails to load, the whole run aborts with the failure instead of recording an
empty subcategory list and continuing. -/
theorem C1_no_catch_counterexample :
    buildDataset badFetch = Except.error () ∧
      badFetch (catUrl "risk-assessment") = Except.ok emptyDoc := by
  exact ⟨rfl, rfl⟩

/-- C1 amended: the per-category catch exists in the patched scraper's `main`,
not in v8's `build_dataset`: `main` records every category (in input order),
and a category whose extraction fails is recorded with an empty mapping while
the run continues; in v8 the same failure propagates and aborts the run. -/
theorem C1_patched_catches (fetch : String → Except Unit Doc)
    (slug title : String) :
    ((mainPatched fetch).map Prod.fst = CATEGORIES.map Prod.snd)
  ∧ ((slug, title) ∈ CATEGORIES →
      extractCategoryP fetch slug = Except.error () →
      dictGet (mainPatched fetch) title = some []) := by
  constructor
  · unfold mainPatched
    rfl
  · intro hmem herr
    fin_cases hmem <;>
      · simp only [mainPatched, CATEGORIES, List.map]
        rw [herr]
        rfl

/-- Witness for C1 amended: with the `scheming` page failing, the patched
`main` still records all seven categories, with an empty mapping for the
failed one. -/
theorem C1_patched_catches_witness :
    ((mainPatched badFetch).map Prod.fst = CATEGORIES.map Prod.snd)
  ∧ dictGet (mainPatched badFetch) "Scheming risk prevention" = some [] := by
  constructor
  · exact (C1_patched_catches badFetch "scheming" "Scheming risk prevention").1
  · exact (C1_patched_catches badFetch "scheming" "Scheming risk prevention").2
      (by decide) rfl

/-! ## Claims C9 and C10: determinism and the fixed rubric source -/

/-- The core congruence: `build_dataset` consults exactly the overview page,
the seven category pages and the seven xAI cell pages; two sites that agree on
those URLs produce identical outputs. -/
theorem buildDataset_congr (f g : String → Except Unit Doc)
    (h : ∀ u ∈ usedUrls, f u = g u) : buildDataset f = buildDataset g := by
  have h0 := h overviewUrl (by decide)
  have h1 := h (catUrl "risk-assessment") (by decide)
  have h2 := h (catUrl "scheming") (by decide)
  have h3 := h (catUrl "safety-research") (by decide)
  have h4 := h (catUrl "misuse") (by decide)
  have h5 := h (catUrl "security") (by decide)
  have h6 := h (catUrl "information-sharing") (by decide)
  have h7 := h (catUrl "planning") (by decide)
  have k1 := h (cellUrl "risk-assessment") (by decide)
  have k2 := h (cellUrl "scheming") (by decide)
  have k3 := h (cellUrl "safety-research") (by decide)
  have k4 := h (cellUrl "misuse") (by decide)
  have k5 := h (cellUrl "security") (by decide)
  have k6 := h (cellUrl "information-sharing") (by decide)
  have k7 := h (cellUrl "planning") (by decide)
  simp only [buildDataset, CATEGORIES, buildCats, h0, h1, h2, h3, h4, h5, h6,
    h7, k1, k2, k3, k4, k5, k6, k7]

/-- C9: re-running the extraction against an unchanged document state produces
byte-identical output — the serialized dataset is a deterministic function of
the rendered documents at the consulted URLs and the compiled-in
configuration. -/
theorem C9_byte_identical (f g : String → Except Unit Doc)
    (h : ∀ u ∈ usedUrls, f u = g u) :
    renderDataset (buildDataset f) = renderDataset (buildDataset g) := by
  rw [buildDataset_congr f g h]

def c9doc : Doc := (Node.elem "BODY" "" "" [Node.text "no data"], ([] : CellPage))
def c9fetchA : String → Except Unit Doc := fun _ => .ok c9doc
def c9fetchB : String → Except Unit Doc :=
  fun u => if u = "cell/openai/misuse" then .error () else .ok c9doc

/-- Witness for C9: two runs over document states that agree on every
consulted URL (differing on an unconsulted one) serialize identically. -/
theorem C9_byte_identical_witness :
    renderDataset (buildDataset c9fetchA) = renderDataset (buildDataset c9fetchB) :=
  C9_byte_identical c9fetchA c9fetchB (by intro u hu; fin_cases hu <;> rfl)

/-- C10: the rubric scrape reads only the fixed representative-entity page
`cell/xai/<slug>` for each category — every consulted URL that is a cell page
is an xAI cell page, and the output is unaffected by the content (or failure)
of any other entity's page, including when heading resolution fails for a
subcategory: there is no second-representative-entity fallback. -/
theorem C10_fixed_representative (f g : String → Except Unit Doc)
    (h : ∀ u ∈ usedUrls, f u = g u) :
    buildDataset f = buildDataset g ∧
      usedUrls.all
        (fun u => !("cell/".toList.isPrefixOf u.toList) ||
          ("cell/xai/".toList.isPrefixOf u.toList)) = true :=
  ⟨buildDataset_congr f g h, by decide⟩

def c10doc : Doc := (Node.elem "BODY" "" "" [], ([] : CellPage))
def c10fetchA : String → Except Unit Doc := fun _ => .ok c10doc
def c10fetchB : String → Except Unit Doc :=
  fun u => if u = "cell/anthropic/planning" then .error () else .ok c10doc

/-- Witness for C10: making a non-xAI cell page fail changes nothing. -/
theorem C10_fixed_representative_witness :
    buildDataset c10fetchA = buildDataset c10fetchB ∧
      usedUrls.all
        (fun u => !("cell/".toList.isPrefixOf u.toList) ||
          ("cell/xai/".toList.isPrefixOf u.toList)) = true :=
  C10_fixed_representative c10fetchA c10fetchB (by intro u hu; fin_cases hu <;> rfl)
